import Mathlib

/-!
A shallow embedding of the core of `src/include/kitepp/kitews.hpp`
(class `kiteWS`): the big-endian byte reader `_getNum`, the packet
splitter `_splitPackets`, the tick decoder `_parseBinaryMessage`, the
subscription ledger operations `subscribe` / `unsubscribe` / `setMode`,
the reconnect resubscription `_resubInstruments`, the binary branch of
the `onMessage` handler installed by `_assignCallbacks`, and the text
router `_processTextMessage`.

Bytes are modelled as `Nat` (a valid byte is `< 256`); machine integers
as `Nat`/`Int` with explicit two's-complement conversion; C++ `double`
prices as `ℚ` (the claims below depend only on which divisor is chosen,
never on floating-point rounding); thrown `kc::libException`s as
`Except String`.

The C++ `_getNum` builds a `std::vector<char>` from iterators
`bytes.begin() + start` to `bytes.begin() + end + 1`; when `end + 1`
exceeds the vector's size this walks into the heap memory that follows
the vector's buffer (undefined behaviour in C++).  To model that
faithfully, functions that read from a packet take an extra list `mem`:
the unknown heap bytes that sit immediately after the packet's buffer.
In-bounds reads are independent of `mem`.
-/

namespace KiteWS

/-- Little-endian value of a byte list: the result of `memcpy` into an
integer on a little-endian host. -/
def leNat : List Nat → Nat
  | [] => 0
  | b :: bs => b + 256 * leNat bs

/-- Big-endian value of a byte list (most significant byte first). -/
def beNat : List Nat → Nat
  | [] => 0
  | b :: bs => b * 256 ^ bs.length + beNat bs

/-- Two's-complement reinterpretation of a 16-bit pattern as `int16_t`. -/
def toInt16 (n : Nat) : Int :=
  if n < 2 ^ 15 then (n : Int) else (n : Int) - 2 ^ 16

/-- Two's-complement reinterpretation of a 32-bit pattern as `int32_t`. -/
def toInt32 (n : Nat) : Int :=
  if n < 2 ^ 31 then (n : Int) else (n : Int) - 2 ^ 32

/-- `_getNum<T>(bytes, start, end)` (kitews.hpp:397-411), on a
little-endian host (the `#ifndef WORDS_BIGENDIAN` branch): copy the
slice `bytes[start .. end]` (inclusive), reverse it, and `memcpy` the
first `w = sizeof(T)` bytes into the result.  The caller applies
`toInt16`/`toInt32` to recover the signed value.  `List.take` clamps at
the end of `bytes`, so callers append the trailing heap bytes `mem`
themselves when a read can be out of bounds. -/
def getNum (bytes : List Nat) (start fin w : Nat) : Nat :=
  leNat ((((bytes.drop start).take (fin + 1 - start)).reverse).take w)

/-- `_segmentConstants` (kitews.hpp:318-329). -/
def segmentConstants : List (String × Int) :=
  [("nse", 1), ("nfo", 2), ("cds", 3), ("bse", 4), ("bfo", 5),
   ("bsecds", 6), ("mcx", 7), ("mcxsx", 8), ("indices", 9)]

/-- `_segmentConstants.at(name)` (the name is always present where the
source calls it). -/
def segAt (name : String) : Int :=
  (((segmentConstants.find? (fun e => e.1 == name)).map (fun e => e.2)).getD 0)

/-- Modelled from the spec: the mode constants `MODE_LTP`, `MODE_QUOTE`,
`MODE_FULL` come from `userconstants.hpp`, which is not part of the
sources given; §6 of the spec fixes the wire mode strings as `"ltp"`,
`"quote"`, `"full"`. -/
def MODE_LTP : String := "ltp"

/-- Modelled from the spec: see `MODE_LTP`. -/
def MODE_QUOTE : String := "quote"

/-- Modelled from the spec: see `MODE_LTP`. -/
def MODE_FULL : String := "full"

/-- Modelled from the spec: one entry of the market-depth arrays
(`kc::depthWS`, declared in `responses.hpp`, not among the sources):
`{quantity: i32, price: f64, orders: i16}`. -/
structure depthWS where
  quantity : Int := 0
  price : ℚ := 0
  orders : Int := 0
  deriving Repr, DecidableEq

/-- Modelled from the spec: the tick record (`kc::tick`, declared in
`responses.hpp`, not among the sources), §3 of the spec; fields not
populated by a packet keep their type's zero value. -/
structure tick where
  instrumentToken : Int := 0
  isTradable : Bool := false
  mode : String := ""
  lastPrice : ℚ := 0
  ohlcOpen : ℚ := 0
  ohlcHigh : ℚ := 0
  ohlcLow : ℚ := 0
  ohlcClose : ℚ := 0
  netChange : ℚ := 0
  lastTradedQuantity : Int := 0
  averageTradePrice : ℚ := 0
  volumeTraded : Int := 0
  totalBuyQuantity : Int := 0
  totalSellQuantity : Int := 0
  lastTradeTime : Int := 0
  oi : Int := 0
  oiDayHigh : Int := 0
  oiDayLow : Int := 0
  timestamp : Int := 0
  depthBuy : List depthWS := []
  depthSell : List depthWS := []
  deriving Repr, DecidableEq

/-- `int32_t instrumentToken = _getNum<int32_t>(packet, 0, 3)`
(kitews.hpp:440).  `bytes` is the packet followed by its trailing heap
memory. -/
def instrumentTokenOf (bytes : List Nat) : Int :=
  toInt32 (getNum bytes 0 3 4)

/-- `int segment = instrumentToken & 0xff` (kitews.hpp:441); on two's
complement, `& 0xff` is the value modulo 256 (Lean's `%` on `Int` is
Euclidean, so the result is in `[0, 256)`). -/
def segmentOf (bytes : List Nat) : Int :=
  instrumentTokenOf bytes % 256

/-- `double divisor = (segment == _segmentConstants.at("cds")) ?
10000000.0 : 100.0` (kitews.hpp:442). -/
def divisorOf (bytes : List Nat) : ℚ :=
  if segmentOf bytes = segAt "cds" then 10000000 else 100

/-- `bool tradable = (segment == _segmentConstants.at("indices")) ?
false : true` (kitews.hpp:443). -/
def tradableOf (bytes : List Nat) : Bool :=
  if segmentOf bytes = segAt "indices" then false else true

/-- The body of the per-packet loop of `_parseBinaryMessage`
(kitews.hpp:437-511).  `packet` is the contents of the packet vector,
`mem` the heap bytes that follow its buffer (read only by the
out-of-bounds `_getNum(packet, 28, 33)` of the 32-byte branch). -/
def parsePacket (mem : List Nat) (packet : List Nat) : tick :=
  let bytes := packet ++ mem
  let packetSize := packet.length
  let base : tick :=
    { instrumentToken := instrumentTokenOf bytes
      isTradable := tradableOf bytes }
  let divisor := divisorOf bytes
  if packetSize = 8 then
    { base with
      mode := MODE_LTP
      lastPrice := (toInt32 (getNum bytes 4 7 4) : ℚ) / divisor }
  else if packetSize = 28 ∨ packetSize = 32 then
    let t :=
      { base with
        mode := if packetSize = 28 then MODE_QUOTE else MODE_FULL
        lastPrice := (toInt32 (getNum bytes 4 7 4) : ℚ) / divisor
        ohlcHigh := (toInt32 (getNum bytes 8 11 4) : ℚ) / divisor
        ohlcLow := (toInt32 (getNum bytes 12 15 4) : ℚ) / divisor
        ohlcOpen := (toInt32 (getNum bytes 16 19 4) : ℚ) / divisor
        ohlcClose := (toInt32 (getNum bytes 20 23 4) : ℚ) / divisor
        netChange := (toInt32 (getNum bytes 24 27 4) : ℚ) / divisor }
    if packetSize = 32 then
      { t with timestamp := toInt32 (getNum bytes 28 33 4) }
    else t
  else if packetSize = 44 ∨ packetSize = 184 then
    let lastPrice := (toInt32 (getNum bytes 4 7 4) : ℚ) / divisor
    let ohlcClose := (toInt32 (getNum bytes 40 43 4) : ℚ) / divisor
    let t :=
      { base with
        mode := if packetSize = 44 then MODE_QUOTE else MODE_FULL
        lastPrice := lastPrice
        lastTradedQuantity := toInt32 (getNum bytes 8 11 4)
        averageTradePrice := (toInt32 (getNum bytes 12 15 4) : ℚ) / divisor
        volumeTraded := toInt32 (getNum bytes 16 19 4)
        totalBuyQuantity := toInt32 (getNum bytes 20 23 4)
        totalSellQuantity := toInt32 (getNum bytes 24 27 4)
        ohlcOpen := (toInt32 (getNum bytes 28 31 4) : ℚ) / divisor
        ohlcHigh := (toInt32 (getNum bytes 32 35 4) : ℚ) / divisor
        ohlcLow := (toInt32 (getNum bytes 36 39 4) : ℚ) / divisor
        ohlcClose := ohlcClose
        netChange := (lastPrice - ohlcClose) * 100 / ohlcClose }
    if packetSize = 184 then
      let depths := (List.range 10).map (fun i =>
        let depthStartIdx := 64 + 12 * i
        ({ quantity := toInt32 (getNum bytes depthStartIdx (depthStartIdx + 3) 4)
           price := (toInt32 (getNum bytes (depthStartIdx + 4) (depthStartIdx + 7) 4) : ℚ) / divisor
           orders := toInt16 (getNum bytes (depthStartIdx + 8) (depthStartIdx + 9) 2) } : depthWS))
      { t with
        lastTradeTime := toInt32 (getNum bytes 44 47 4)
        oi := toInt32 (getNum bytes 48 51 4)
        oiDayHigh := toInt32 (getNum bytes 52 55 4)
        oiDayLow := toInt32 (getNum bytes 56 59 4)
        timestamp := toInt32 (getNum bytes 60 63 4)
        depthBuy := depths.take 5
        depthSell := depths.drop 5 }
    else t
  else base

/-- The loop of `_splitPackets` (kitews.hpp:420-426).  The fuel is the
number of remaining iterations (`numberOfPackets` clamped at zero, as
the signed comparison `i <= numberOfPackets` gives).  The index
`packetLengthStartIdx` is an `unsigned int`, updated by adding the
signed `int16_t` length, hence the `emod 2 ^ 32`.  The slice taken by
`packets.emplace_back` is modelled with clamping `drop`/`take`; where
the C++ iterators would leave the buffer, `splitLoopOk` below is
`false`. -/
def splitLoop (bytes : List Nat) : Nat → Nat → List (List Nat)
  | 0, _ => []
  | k + 1, packetLengthStartIdx =>
      let packetLengthEndIdx := packetLengthStartIdx + 1
      let packetLength : Int := toInt16 (getNum bytes packetLengthStartIdx packetLengthEndIdx 2)
      let nextStart : Nat :=
        ((((packetLengthEndIdx : Int) + packetLength + 1).emod (2 ^ 32))).toNat
      ((bytes.drop (packetLengthEndIdx + 1)).take (nextStart - (packetLengthEndIdx + 1))) ::
        splitLoop bytes k nextStart

/-- `_splitPackets` (kitews.hpp:413-429). -/
def splitPackets (bytes : List Nat) : List (List Nat) :=
  splitLoop bytes (toInt16 (getNum bytes 0 1 2)).toNat 2

/-- Companion of `splitLoop`: `true` iff every read the loop performs
(each 2-byte length read and each packet slice) stays inside `bytes`
and no declared length is negative.  `_splitPackets` itself performs no
such check. -/
def splitLoopOk (bytes : List Nat) : Nat → Nat → Bool
  | 0, _ => true
  | k + 1, packetLengthStartIdx =>
      let packetLengthEndIdx := packetLengthStartIdx + 1
      if packetLengthEndIdx + 1 ≤ bytes.length then
        let packetLength : Int := toInt16 (getNum bytes packetLengthStartIdx packetLengthEndIdx 2)
        let nextStart : Int := (packetLengthEndIdx : Int) + packetLength + 1
        if 0 ≤ packetLength ∧ nextStart ≤ (bytes.length : Int) then
          splitLoopOk bytes k nextStart.toNat
        else false
      else false

/-- Companion of `splitPackets`: `true` iff the declared packet count
and per-packet lengths keep every read of `_splitPackets` inside the
frame. -/
def splitPacketsOk (bytes : List Nat) : Bool :=
  if 2 ≤ bytes.length then splitLoopOk bytes (toInt16 (getNum bytes 0 1 2)).toNat 2
  else false

/-- `_parseBinaryMessage` (kitews.hpp:431-515): split the frame, decode
each packet.  (The early return for an empty packet list coincides with
mapping over the empty list.) -/
def parseBinaryMessage (mem : List Nat) (bytes : List Nat) : List tick :=
  (splitPackets bytes).map (parsePacket mem)

/-- The 2-byte big-endian encoding of a value `< 2 ^ 16`. -/
def be16 (n : Nat) : List Nat :=
  [n / 256, n % 256]

/-- The body of a frame: for each packet, its 2-byte big-endian length
followed by its payload (spec §4.2). -/
def encodeBody : List (List Nat) → List Nat
  | [] => []
  | p :: ps => be16 p.length ++ p ++ encodeBody ps

/-- A whole frame: the 2-byte big-endian packet count, then the body
(spec §4.2). -/
def encodeFrame (ps : List (List Nat)) : List Nat :=
  be16 ps.length ++ encodeBody ps

/-- The client state a claim can observe: whether a transport is live
(`isConnected()`, i.e. `_WS != nullptr`), the subscription ledger
`_subbedInstruments` (an `std::unordered_map<int, string>`, modelled as
an association list with unique keys), `_lastBeatTime` (an abstract
clock value), and whether the host installed the `onTicks` callback. -/
structure wsClient where
  connected : Bool
  subbedInstruments : List (Int × String)
  lastBeatTime : Nat := 0
  onTicksSet : Bool := false
  deriving Repr, DecidableEq

/-- The exception message of the `NotConnected` failure
(kitews.hpp:236, 270, 306). -/
def notConnectedMsg : String := "Not connected to websocket server"

/-- `_subbedInstruments[tok] = mode`: `operator[]` finds the unique
entry with key `tok` and overwrites its value, or appends a fresh entry
when the key is absent. -/
def mapAssign (l : List (Int × String)) (tok : Int) (mode : String) :
    List (Int × String) :=
  if l.any (fun e => e.1 == tok) then
    l.map (fun e => if e.1 == tok then (e.1, mode) else e)
  else l ++ [(tok, mode)]

/-- `for (const int tok : instrumentToks) { _subbedInstruments[tok] = mode; }`. -/
def assignAll (l : List (Int × String)) (toks : List Int) (mode : String) :
    List (Int × String) :=
  toks.foldl (fun acc tok => mapAssign acc tok mode) l

/-- Lookup in the ledger (`_subbedInstruments.find`). -/
def ledgerGet (l : List (Int × String)) (tok : Int) : Option String :=
  (l.find? (fun e => e.1 == tok)).map (fun e => e.2)

/-- `kiteWS::subscribe` (kitews.hpp:216-238): when connected, send the
frame and set every token's ledger entry to `""`; otherwise throw and
leave the state untouched. -/
def subscribe (ws : wsClient) (instrumentToks : List Int) :
    wsClient × Except String Unit :=
  if ws.connected then
    ({ ws with subbedInstruments := assignAll ws.subbedInstruments instrumentToks "" },
      Except.ok ())
  else (ws, Except.error notConnectedMsg)

/-- `kiteWS::unsubscribe` (kitews.hpp:245-272): when connected, erase
each token's entry if present; otherwise throw and leave the state
untouched. -/
def unsubscribe (ws : wsClient) (instrumentToks : List Int) :
    wsClient × Except String Unit :=
  if ws.connected then
    ({ ws with
        subbedInstruments :=
          instrumentToks.foldl
            (fun acc tok => acc.eraseP (fun e => e.1 == tok))
            ws.subbedInstruments },
      Except.ok ())
  else (ws, Except.error notConnectedMsg)

/-- `kiteWS::setMode` (kitews.hpp:280-308): when connected, send the
frame and set every token's ledger entry to `mode` (no validation of
`mode`); otherwise throw and leave the state untouched. -/
def setMode (ws : wsClient) (mode : String) (instrumentToks : List Int) :
    wsClient × Except String Unit :=
  if ws.connected then
    ({ ws with subbedInstruments := assignAll ws.subbedInstruments instrumentToks mode },
      Except.ok ())
  else (ws, Except.error notConnectedMsg)

/-- The partition loop of `_resubInstruments` (kitews.hpp:522-529):
one pass over the ledger, four independent `if`s appending to the LTP,
QUOTE and FULL lists (an empty mode also goes to QUOTE). -/
def resubAux :
    List (Int × String) → List Int × List Int × List Int →
      List Int × List Int × List Int
  | [], acc => acc
  | i :: rest, (ltp, quote, full) =>
      let ltp' := if i.2 = MODE_LTP then ltp ++ [i.1] else ltp
      let quote' := if i.2 = MODE_QUOTE then quote ++ [i.1] else quote
      let full' := if i.2 = MODE_FULL then full ++ [i.1] else full
      let quote'' := if i.2 = "" then quote' ++ [i.1] else quote'
      resubAux rest (ltp', quote'', full')

/-- The three per-mode lists `LTPInstruments`, `quoteInstruments`,
`fullInstruments` built by `_resubInstruments` (kitews.hpp:517-529). -/
def resubLists (ledger : List (Int × String)) :
    List Int × List Int × List Int :=
  resubAux ledger ([], [], [])

/-- The `setMode` requests `_resubInstruments` issues (kitews.hpp:
531-533): one per non-empty list, as (mode string, token list). -/
def resubRequests (ledger : List (Int × String)) : List (String × List Int) :=
  let (ltp, quote, full) := resubLists ledger
  (if ltp ≠ [] then [(MODE_LTP, ltp)] else []) ++
    (if quote ≠ [] then [(MODE_QUOTE, quote)] else []) ++
      (if full ≠ [] then [(MODE_FULL, full)] else [])

/-- Spec-side description of the LTP batch (spec §4.4): the tokens of
the ledger entries whose mode is LTP, in ledger order.  Stated from the
spec's words, to be compared with `resubLists`. -/
def ltpOf (ledger : List (Int × String)) : List Int :=
  (ledger.filter (fun e => e.2 == MODE_LTP)).map (fun e => e.1)

/-- Spec-side description of the QUOTE batch (spec §4.4): the tokens of
the entries whose mode is QUOTE or the unset sentinel. -/
def quoteOf (ledger : List (Int × String)) : List Int :=
  (ledger.filter (fun e => e.2 == MODE_QUOTE || e.2 == "")).map (fun e => e.1)

/-- Spec-side description of the FULL batch (spec §4.4). -/
def fullOf (ledger : List (Int × String)) : List Int :=
  (ledger.filter (fun e => e.2 == MODE_FULL)).map (fun e => e.1)

/-- The `uWS::OpCode::BINARY` branch of the `onMessage` handler
installed by `_assignCallbacks` (kitews.hpp:575-588): the whole branch
is guarded by `opCode == BINARY && onTicks`; inside, a length-1 frame
updates `_lastBeatTime` to the current wall-clock time `now` and
nothing is parsed, otherwise the frame is split/decoded and passed to
`onTicks`.  The second component lists the `onTicks` invocations (each
with its decoded ticks); decoding — hence the splitter — runs only when
such an invocation is produced. -/
def handleBinaryMessage (ws : wsClient) (now : Nat) (mem : List Nat)
    (message : List Nat) : wsClient × List (List tick) :=
  if ws.onTicksSet then
    if message.length = 1 then ({ ws with lastBeatTime := now }, [])
    else (ws, [parseBinaryMessage mem message])
  else (ws, [])

/-- A JSON value, as far as the text router inspects one. -/
inductive JsonVal where
  | str : String → JsonVal
  | obj : List (String × JsonVal) → JsonVal
  | other : JsonVal

/-- Modelled from the spec: `rju::_getIfExists(res, type, "type")`
(`rjutils.hpp` is not among the sources).  Per spec §4.5 the router
reads the string field `type` of the object; a missing or non-string
field leaves the default-constructed empty string. -/
def getIfExistsString (fields : List (String × JsonVal)) (name : String) : String :=
  match (fields.find? (fun e => e.1 == name)).map (fun e => e.2) with
  | some (JsonVal.str s) => s
  | _ => ""

/-- Which host callbacks are installed, for the text router. -/
structure textCallbacks where
  onOrderUpdate : Bool
  onMessage : Bool
  onError : Bool
  deriving Repr, DecidableEq

/-- One host-callback invocation made by the text router. -/
inductive textEffect where
  | orderUpdate (data : Option JsonVal) : textEffect
  | message (raw : String) : textEffect
  | error (code : Int) (data : Option JsonVal) : textEffect

/-- `_processTextMessage` (kitews.hpp:382-394): reject a non-object
root; read `type` via `_getIfExists`; throw when `type` is empty; then
three independent, non-exclusive `if`s dispatch to the callbacks that
are set.  A non-empty type outside {order, message, error} matches none
of the `if`s and the function returns normally. -/
def processTextMessage (cb : textCallbacks) (raw : String) (res : JsonVal) :
    Except String (List textEffect) :=
  match res with
  | JsonVal.obj fields =>
      let type := getIfExistsString fields "type"
      if type = "" then
        Except.error "Cannot recognize websocket message type "
      else
        Except.ok
          ((if type = "order" ∧ cb.onOrderUpdate then
              [textEffect.orderUpdate ((fields.find? (fun e => e.1 == "data")).map (fun e => e.2))]
            else []) ++
            (if type = "message" ∧ cb.onMessage then [textEffect.message raw] else []) ++
              (if type = "error" ∧ cb.onError then
                [textEffect.error 0 ((fields.find? (fun e => e.1 == "data")).map (fun e => e.2))]
              else []))
  | _ => Except.error "Expected a JSON object"

/-! ## Helper lemmas -/

lemma leNat_append_singleton (l : List Nat) (a : Nat) :
    leNat (l ++ [a]) = leNat l + a * 256 ^ l.length := by
  induction l with
  | nil => simp [leNat]
  | cons b bs ih =>
      simp only [List.cons_append, leNat, List.append_eq, ih, List.length_cons]
      ring

lemma leNat_reverse (l : List Nat) : leNat l.reverse = beNat l := by
  induction l with
  | nil => rfl
  | cons b bs ih =>
      simp only [List.reverse_cons, leNat_append_singleton, ih, beNat,
        List.length_reverse]
      ring

/-- An in-bounds 4-byte read is the big-endian value of the slice. -/
lemma getNum_four (bytes : List Nat) (start : Nat)
    (h : start + 4 ≤ bytes.length) :
    getNum bytes start (start + 3) 4 = beNat ((bytes.drop start).take 4) := by
  unfold getNum
  have hlen : ((bytes.drop start).take 4).length = 4 := by
    simp [List.length_take, List.length_drop]
    omega
  have h1 : (start + 3 + 1 - start) = 4 := by omega
  rw [h1, List.take_of_length_le (by simp [hlen]), leNat_reverse]

/-- An in-bounds 2-byte read sitting right after a known list: the
big-endian value of the two bytes. -/
lemma getNum_pair (pre rest : List Nat) (a b : Nat) :
    getNum (pre ++ a :: b :: rest) pre.length (pre.length + 1) 2 =
      256 * a + b := by
  unfold getNum
  rw [List.drop_left]
  have h1 : pre.length + 1 + 1 - pre.length = 2 := by omega
  rw [h1]
  simp [leNat]
  ring

lemma toInt32_emod_256 (n : Nat) : toInt32 n % 256 = ((n % 256 : Nat) : Int) := by
  unfold toInt32
  split <;> omega

lemma segAt_cds : segAt "cds" = 3 := by decide

lemma segAt_indices : segAt "indices" = 9 := by decide

/-- Every branch of the decoder leaves the tradability flag computed up
front untouched. -/
lemma parsePacket_isTradable (mem packet : List Nat) :
    (parsePacket mem packet).isTradable = tradableOf (packet ++ mem) := by
  simp only [parsePacket]
  split_ifs <;> rfl

lemma getNum_head (bytes : List Nat) (packet mem : List Nat)
    (hbytes : bytes = packet ++ mem) (h4 : 4 ≤ packet.length) :
    getNum bytes 0 3 4 = beNat (packet.take 4) := by
  subst hbytes
  have hlen : 0 + 4 ≤ (packet ++ mem).length := by
    simp only [List.length_append]; omega
  have h := getNum_four (packet ++ mem) 0 hlen
  simpa [List.take_append_of_le_length h4] using h

/-! ## Claim theorems -/

/-- C1: for every decoded tick packet (the decoder reads at least the
4-byte token, so the packet has length ≥ 4), the segment code used by
the decoder equals the low 8 bits of the big-endian int32 instrument
token read from bytes [0..4); the price divisor is 10000000 when that
segment code is 3 (cds) and 100 otherwise; and the tick's tradability
flag is false exactly when the segment code is 9 (indices). -/
theorem segment_divisor_tradable (packet mem : List Nat)
    (h4 : 4 ≤ packet.length) :
    segmentOf (packet ++ mem) = ((beNat (packet.take 4) % 256 : Nat) : Int) ∧
    divisorOf (packet ++ mem) =
      (if beNat (packet.take 4) % 256 = 3 then (10000000 : ℚ) else 100) ∧
    (parsePacket mem packet).isTradable =
      (if beNat (packet.take 4) % 256 = 9 then false else true) := by
  have hseg : segmentOf (packet ++ mem) =
      ((beNat (packet.take 4) % 256 : Nat) : Int) := by
    unfold segmentOf instrumentTokenOf
    rw [getNum_head (packet ++ mem) packet mem rfl h4, toInt32_emod_256]
  refine ⟨hseg, ?_, ?_⟩
  · unfold divisorOf
    rw [hseg, segAt_cds]
    split_ifs with h1 h2 <;> first | rfl | (exfalso; omega)
  · rw [parsePacket_isTradable]
    unfold tradableOf
    rw [hseg, segAt_indices]
    split_ifs with h1 h2 <;> first | rfl | (exfalso; omega)

/-- Witness for C1, at the cds LTP packet `00 00 00 03 | 00 00 27 10`. -/
theorem segment_divisor_tradable_witness :
    4 ≤ ([0, 0, 0, 3, 0, 0, 39, 16] : List Nat).length ∧
    (segmentOf ([0, 0, 0, 3, 0, 0, 39, 16] ++ []) =
        ((beNat (([0, 0, 0, 3, 0, 0, 39, 16] : List Nat).take 4) % 256 : Nat) : Int) ∧
      divisorOf ([0, 0, 0, 3, 0, 0, 39, 16] ++ []) =
        (if beNat (([0, 0, 0, 3, 0, 0, 39, 16] : List Nat).take 4) % 256 = 3 then
          (10000000 : ℚ) else 100) ∧
      (parsePacket [] [0, 0, 0, 3, 0, 0, 39, 16]).isTradable =
        (if beNat (([0, 0, 0, 3, 0, 0, 39, 16] : List Nat).take 4) % 256 = 9 then
          false else true)) :=
  ⟨by decide, segment_divisor_tradable [0, 0, 0, 3, 0, 0, 39, 16] [] (by decide)⟩

lemma encodeBody_length_le (ps : List (List Nat))
    (hp : ∀ p ∈ ps, p.length < 2 ^ 15) :
    (encodeBody ps).length ≤ ps.length * (2 ^ 15 + 1) := by
  induction ps with
  | nil => simp [encodeBody]
  | cons p t ih =>
      have hp' : ∀ q ∈ t, q.length < 2 ^ 15 := fun q hq =>
        hp q (List.mem_cons_of_mem _ hq)
      have hhead : p.length < 2 ^ 15 := hp p (List.mem_cons_self _ _)
      have ht := ih hp'
      simp only [encodeBody, be16, List.length_append, List.length_cons,
        List.length_nil]
      omega

lemma splitLoop_encodeBody (ps : List (List Nat)) :
    ∀ pre : List Nat, (∀ p ∈ ps, p.length < 2 ^ 15) →
      pre.length + (encodeBody ps).length ≤ 2 ^ 31 →
      splitLoop (pre ++ encodeBody ps) ps.length pre.length = ps := by
  induction ps with
  | nil => intro pre _ _; rfl
  | cons p t ih =>
      intro pre hp hbound
      have hplen : p.length < 2 ^ 15 := hp p (List.mem_cons_self _ _)
      have hbody : encodeBody (p :: t) =
          p.length / 256 :: p.length % 256 :: (p ++ encodeBody t) := by
        simp [encodeBody, be16]
      have hblen : (encodeBody (p :: t)).length =
          2 + p.length + (encodeBody t).length := by
        simp [encodeBody, be16]; omega
      rw [hbody]
      simp only [List.length_cons, splitLoop]
      have hread : getNum
          (pre ++ p.length / 256 :: p.length % 256 :: (p ++ encodeBody t))
          pre.length (pre.length + 1) 2 = p.length := by
        rw [getNum_pair]; exact Nat.div_add_mod p.length 256
      rw [hread]
      have hint : toInt16 p.length = (p.length : Int) := by
        unfold toInt16; exact if_pos hplen
      rw [hint]
      have hbound' : pre.length + p.length + 2 ≤ 2 ^ 31 := by omega
      have hcast : ((pre.length + 1 : Nat) : Int) + (p.length : Int) + 1 =
          ((pre.length + p.length + 2 : Nat) : Int) := by push_cast; ring
      have hlt : ((pre.length + p.length + 2 : Nat) : Int) < 2 ^ 32 := by
        have h2 : pre.length + p.length + 2 < 2 ^ 32 := by omega
        exact_mod_cast h2
      have he : ((pre.length + p.length + 2 : Nat) : Int).emod (2 ^ 32) =
          ((pre.length + p.length + 2 : Nat) : Int) :=
        Int.emod_eq_of_lt (Int.natCast_nonneg _) hlt
      have hns : ((((pre.length + 1 : Nat) : Int) + (p.length : Int) + 1).emod
          (2 ^ 32)).toNat = pre.length + p.length + 2 := by
        rw [hcast, he]
        omega
      rw [hns]
      have hsplit : pre ++ p.length / 256 :: p.length % 256 :: (p ++ encodeBody t) =
          (pre ++ [p.length / 256, p.length % 256] ++ p) ++ encodeBody t := by
        simp
      simp only [List.cons.injEq]
      constructor
      · rw [hsplit]
        have hdrop : ((pre ++ [p.length / 256, p.length % 256] ++ p) ++
            encodeBody t).drop (pre.length + 1 + 1) = p ++ encodeBody t := by
          have h2 : pre.length + 1 + 1 =
              (pre ++ [p.length / 256, p.length % 256]).length := by
            simp
          rw [h2, List.append_assoc (pre ++ [p.length / 256, p.length % 256]),
            List.drop_left]
        rw [hdrop]
        have hsub : pre.length + p.length + 2 - (pre.length + 1 + 1) = p.length := by
          omega
        rw [hsub, List.take_left]
      · rw [hsplit]
        have hlen2 : pre.length + p.length + 2 =
            (pre ++ [p.length / 256, p.length % 256] ++ p).length := by
          simp; omega
        rw [hlen2]
        exact ih (pre ++ [p.length / 256, p.length % 256] ++ p)
          (fun q hq => hp q (List.mem_cons_of_mem _ hq))
          (by simp only [List.length_append, List.length_cons, List.length_nil]
              omega)

/-- C2: for every frame whose declared 2-byte big-endian packet count
and per-packet 2-byte big-endian lengths are consistent with the
frame's total length (formalised: the frame is the encoding
`encodeFrame ps` of a packet list whose count and lengths fit in a
positive int16), `_splitPackets` returns exactly the declared number of
payloads, in order; re-encoding the result reconstructs the original
frame; and a declared count of 0 yields the empty result. -/
theorem split_round_trip (F : List Nat) (ps : List (List Nat))
    (hF : F = encodeFrame ps) (hn : ps.length < 2 ^ 15)
    (hp : ∀ p ∈ ps, p.length < 2 ^ 15) :
    splitPackets F = ps ∧
    (splitPackets F).length = (toInt16 (getNum F 0 1 2)).toNat ∧
    encodeFrame (splitPackets F) = F ∧
    ((toInt16 (getNum F 0 1 2)).toNat = 0 → splitPackets F = []) := by
  subst hF
  have hcount : getNum (encodeFrame ps) 0 1 2 = ps.length := by
    have h := getNum_pair [] (encodeBody ps) (ps.length / 256) (ps.length % 256)
    simpa [encodeFrame, be16, Nat.div_add_mod] using h
  have hint : toInt16 ps.length = (ps.length : Int) := by
    unfold toInt16; exact if_pos hn
  have hsplit : splitPackets (encodeFrame ps) = ps := by
    unfold splitPackets
    rw [hcount, hint, Int.toNat_natCast]
    have h2 : (2 : Nat) = (be16 ps.length).length := by simp [be16]
    rw [show encodeFrame ps = be16 ps.length ++ encodeBody ps from rfl, h2]
    refine splitLoop_encodeBody ps (be16 ps.length) hp ?_
    have hb := encodeBody_length_le ps hp
    simp only [be16, List.length_cons, List.length_nil]
    omega
  refine ⟨hsplit, ?_, by rw [hsplit], ?_⟩
  · rw [hsplit, hcount, hint, Int.toNat_natCast]
  · intro h0
    rw [hcount, hint, Int.toNat_natCast] at h0
    rw [hsplit]
    exact List.length_eq_zero.mp h0

/-- Witness for C2, at the two-packet frame
`00 02 | 00 02 07 08 | 00 01 09`. -/
theorem split_round_trip_witness :
    splitPackets (encodeFrame [[7, 8], [9]]) = [[7, 8], [9]] ∧
    encodeFrame (splitPackets (encodeFrame [[7, 8], [9]])) =
      encodeFrame [[7, 8], [9]] :=
  ⟨(split_round_trip (encodeFrame [[7, 8], [9]]) [[7, 8], [9]] rfl
      (by decide) (by decide)).1,
    (split_round_trip (encodeFrame [[7, 8], [9]]) [[7, 8], [9]] rfl
      (by decide) (by decide)).2.2.1⟩

/-- C3: the frame `00 01 00 08` declares one packet of length 8 but
holds no payload bytes, so its declared lengths require reading past
the end of the frame (`splitPacketsOk` is false); yet `_splitPackets`
has no bounds check and no failure path — it returns a normal result
(here one clamped-empty packet, where the C++ performs the
out-of-bounds read) instead of failing with `MalformedFrame`. -/
theorem split_oob_unchecked :
    splitPacketsOk [0, 1, 0, 8] = false ∧ splitPackets [0, 1, 0, 8] = [[]] := by
  constructor
  · decide
  · decide

lemma ledgerGet_map_preserve (l : List (Int × String)) (tok : Int) (m : String)
    (t : Int) (h : t ≠ tok) :
    ledgerGet (l.map (fun e => if e.1 == tok then (e.1, m) else e)) t =
      ledgerGet l t := by
  unfold ledgerGet
  rw [List.find?_map]
  have hpred : ((fun e : Int × String => e.1 == t) ∘
      (fun e : Int × String => if e.1 == tok then (e.1, m) else e)) =
      (fun e : Int × String => e.1 == t) := by
    funext e
    simp only [Function.comp]
    split <;> rfl
  rw [hpred]
  cases hfind : l.find? (fun e => e.1 == t) with
  | none => rfl
  | some a =>
      have ha : a.1 = t := by simpa using List.find?_some hfind
      have hne : a.1 ≠ tok := fun hc => h (ha.symm.trans hc)
      simp [hne]

lemma ledgerGet_map_assign_self (l : List (Int × String)) (t : Int) (m : String)
    (hany : l.any (fun e => e.1 == t) = true) :
    ledgerGet (l.map (fun e => if e.1 == t then (e.1, m) else e)) t = some m := by
  induction l with
  | nil => simp at hany
  | cons e l ih =>
      by_cases he : e.1 = t
      · unfold ledgerGet
        rw [List.map_cons]
        have hif : (if (e.1 == t) = true then (e.1, m) else e) = (e.1, m) :=
          if_pos (beq_iff_eq.mpr he)
        rw [hif, List.find?_cons_of_pos _ (by simpa using he)]
        rfl
      · have hany' : l.any (fun e => e.1 == t) = true := by
          simpa [List.any_cons, he] using hany
        unfold ledgerGet
        rw [List.map_cons]
        have hif : (if (e.1 == t) = true then (e.1, m) else e) = e :=
          if_neg (by simp [he])
        rw [hif, List.find?_cons_of_neg _ (by simpa using he)]
        exact ih hany'

lemma ledgerGet_mapAssign (l : List (Int × String)) (tok : Int) (m : String)
    (t : Int) :
    ledgerGet (mapAssign l tok m) t = if t = tok then some m else ledgerGet l t := by
  unfold mapAssign
  cases hany : l.any (fun e => e.1 == tok) with
  | true =>
      rw [if_pos rfl]
      by_cases ht : t = tok
      · subst ht
        rw [if_pos rfl]
        exact ledgerGet_map_assign_self l t m hany
      · rw [if_neg ht]
        exact ledgerGet_map_preserve l tok m t ht
  | false =>
      rw [if_neg Bool.false_ne_true]
      unfold ledgerGet
      rw [List.find?_append]
      by_cases ht : t = tok
      · subst ht
        have hnone : l.find? (fun e => e.1 == t) = none := by
          rw [List.find?_eq_none]
          intro x hx
          have hx' := (List.any_eq_false.mp hany) x hx
          simpa using hx'
        rw [hnone, if_pos rfl]
        simp
      · rw [if_neg ht]
        have hcond : ¬(((tok, m) : Int × String).1 == t) = true := by
          simp only [beq_iff_eq]
          exact fun hc => ht hc.symm
        have hsingle : List.find? (fun e : Int × String => e.1 == t) [(tok, m)] =
            none := by
          rw [@List.find?_cons_of_neg (Int × String)
            (fun e => e.1 == t) (tok, m) [] hcond]
          rfl
        rw [hsingle]
        simp

lemma ledgerGet_assignAll (toks : List Int) (l : List (Int × String))
    (m : String) (t : Int) :
    ledgerGet (assignAll l toks m) t =
      if t ∈ toks then some m else ledgerGet l t := by
  induction toks generalizing l with
  | nil => simp [assignAll]
  | cons tk toks ih =>
      have hstep : assignAll l (tk :: toks) m = assignAll (mapAssign l tk m) toks m := rfl
      rw [hstep, ih]
      by_cases hmem : t ∈ toks
      · simp [hmem, List.mem_cons]
      · rw [if_neg hmem, ledgerGet_mapAssign]
        by_cases htk : t = tk
        · simp [htk, List.mem_cons]
        · simp [htk, hmem, List.mem_cons]

/-- C4 counterexample: on a connected client whose ledger maps token 5
to mode "full", `subscribe [5]` overwrites the stored mode with the
unset sentinel `""` — the claim says an already-present token's mode is
left unchanged. -/
theorem subscribe_overwrites_existing_mode :
    ledgerGet (subscribe ⟨true, [(5, "full")], 0, false⟩ [5]).1.subbedInstruments 5 =
      some "" ∧
    ledgerGet ((⟨true, [(5, "full")], 0, false⟩ : wsClient)).subbedInstruments 5 =
      some "full" ∧
    (some "" : Option String) ≠ some "full" := by
  refine ⟨by decide, by decide, by decide⟩

/-- C4 (amended): on a connected client, `subscribe(X)` sets the ledger
entry of every token of X to the unset-sentinel mode `""` — inserting
the entry when absent and overwriting the stored mode when present —
and leaves entries for tokens not in X unchanged. -/
theorem subscribe_ledger_effect (ws : wsClient) (toks : List Int)
    (h : ws.connected = true) :
    (∀ tok ∈ toks,
        ledgerGet (subscribe ws toks).1.subbedInstruments tok = some "") ∧
    (∀ tok, tok ∉ toks →
        ledgerGet (subscribe ws toks).1.subbedInstruments tok =
          ledgerGet ws.subbedInstruments tok) := by
  have hsub : (subscribe ws toks).1.subbedInstruments =
      assignAll ws.subbedInstruments toks "" := by
    unfold subscribe
    rw [if_pos h]
  constructor
  · intro tok hmem
    rw [hsub, ledgerGet_assignAll, if_pos hmem]
  · intro tok hmem
    rw [hsub, ledgerGet_assignAll, if_neg hmem]

/-- Witness for the amended C4. -/
theorem subscribe_ledger_effect_witness :
    ledgerGet (subscribe ⟨true, [(5, "full")], 0, false⟩ [5, 6]).1.subbedInstruments 6 =
      some "" ∧
    ledgerGet (subscribe ⟨true, [(5, "full")], 0, false⟩ [5, 6]).1.subbedInstruments 9 =
      ledgerGet ((⟨true, [(5, "full")], 0, false⟩ : wsClient)).subbedInstruments 9 :=
  ⟨(subscribe_ledger_effect ⟨true, [(5, "full")], 0, false⟩ [5, 6] rfl).1 6
      (by decide),
    (subscribe_ledger_effect ⟨true, [(5, "full")], 0, false⟩ [5, 6] rfl).2 9
      (by decide)⟩

/-- C5: on a disconnected client (`isConnected()` false), each of
`subscribe`, `unsubscribe` and `setMode` throws the not-connected
exception and returns the state — in particular the subscription
ledger — exactly as it was. -/
theorem not_connected_atomic (ws : wsClient) (mode : String) (toks : List Int)
    (h : ws.connected = false) :
    subscribe ws toks = (ws, Except.error notConnectedMsg) ∧
    unsubscribe ws toks = (ws, Except.error notConnectedMsg) ∧
    setMode ws mode toks = (ws, Except.error notConnectedMsg) := by
  unfold subscribe unsubscribe setMode
  rw [h]
  exact ⟨rfl, rfl, rfl⟩

/-- Witness for C5. -/
theorem not_connected_atomic_witness :
    (⟨false, [(1, "ltp")], 0, false⟩ : wsClient).connected = false ∧
    (subscribe ⟨false, [(1, "ltp")], 0, false⟩ [2] =
        (⟨false, [(1, "ltp")], 0, false⟩, Except.error notConnectedMsg) ∧
      unsubscribe ⟨false, [(1, "ltp")], 0, false⟩ [2] =
        (⟨false, [(1, "ltp")], 0, false⟩, Except.error notConnectedMsg) ∧
      setMode ⟨false, [(1, "ltp")], 0, false⟩ "quote" [2] =
        (⟨false, [(1, "ltp")], 0, false⟩, Except.error notConnectedMsg)) :=
  ⟨rfl, not_connected_atomic ⟨false, [(1, "ltp")], 0, false⟩ "quote" [2] rfl⟩

lemma resubAux_eq (ledger : List (Int × String)) :
    ∀ acc : List Int × List Int × List Int,
      resubAux ledger acc =
        (acc.1 ++ ltpOf ledger, acc.2.1 ++ quoteOf ledger,
          acc.2.2 ++ fullOf ledger) := by
  induction ledger with
  | nil =>
      intro acc
      simp [resubAux, ltpOf, quoteOf, fullOf]
  | cons i rest ih =>
      intro acc
      obtain ⟨l, q, f⟩ := acc
      simp only [resubAux]
      rw [ih]
      by_cases h1 : i.2 = MODE_LTP
      · have h2 : ¬i.2 = MODE_QUOTE := by rw [h1]; decide
        have h3 : ¬i.2 = MODE_FULL := by rw [h1]; decide
        have h4 : ¬i.2 = "" := by rw [h1]; decide
        simp [ltpOf, quoteOf, fullOf, List.filter_cons, h1, h2, h3, h4, MODE_LTP, MODE_QUOTE, MODE_FULL]
      · by_cases h2 : i.2 = MODE_QUOTE
        · have h3 : ¬i.2 = MODE_FULL := by rw [h2]; decide
          have h4 : ¬i.2 = "" := by rw [h2]; decide
          simp [ltpOf, quoteOf, fullOf, List.filter_cons, h1, h2, h3, h4, MODE_LTP, MODE_QUOTE, MODE_FULL]
        · by_cases h3 : i.2 = MODE_FULL
          · have h4 : ¬i.2 = "" := by rw [h3]; decide
            simp [ltpOf, quoteOf, fullOf, List.filter_cons, h1, h2, h3, h4, MODE_LTP, MODE_QUOTE, MODE_FULL]
          · by_cases h4 : i.2 = ""
            · simp [ltpOf, quoteOf, fullOf, List.filter_cons, h1, h2, h3, h4, MODE_LTP, MODE_QUOTE, MODE_FULL]
            · simp only [KiteWS.MODE_LTP] at h1
              simp only [KiteWS.MODE_QUOTE] at h2
              simp only [KiteWS.MODE_FULL] at h3
              simp [ltpOf, quoteOf, fullOf, List.filter_cons, h1, h2, h3, h4, MODE_LTP, MODE_QUOTE, MODE_FULL]

lemma resubLists_eq (ledger : List (Int × String)) :
    resubLists ledger = (ltpOf ledger, quoteOf ledger, fullOf ledger) := by
  unfold resubLists
  rw [resubAux_eq]
  simp

/-- C6 counterexample: a single-entry ledger whose stored mode is the
string "x" (reachable, since `setMode` stores its argument verbatim) is
dropped from all three per-mode lists, so the sum of their lengths is
0, not the ledger size 1 — refuting the claim's "for every ledger". -/
theorem resub_drops_unknown_mode :
    (resubLists [((1 : Int), "x")]).1.length +
        (resubLists [((1 : Int), "x")]).2.1.length +
        (resubLists [((1 : Int), "x")]).2.2.length ≠
      ([((1 : Int), "x")] : List (Int × String)).length := by
  decide

/-- C6 (amended): for every ledger all of whose stored modes lie in
{ltp, quote, full, unset-sentinel}, `_resubInstruments` partitions the
entries into the three per-mode lists (unset-sentinel entries in the
QUOTE list), the sum of the three lengths equals the ledger size, and
exactly one `setMode` request is issued per non-empty list, with mode
strings "ltp", "quote", "full" respectively. -/
theorem resub_partition (ledger : List (Int × String))
    (h : ∀ e ∈ ledger,
        e.2 = MODE_LTP ∨ e.2 = MODE_QUOTE ∨ e.2 = MODE_FULL ∨ e.2 = "") :
    resubLists ledger = (ltpOf ledger, quoteOf ledger, fullOf ledger) ∧
    (ltpOf ledger).length + (quoteOf ledger).length + (fullOf ledger).length =
      ledger.length ∧
    resubRequests ledger =
      (if ltpOf ledger ≠ [] then [(MODE_LTP, ltpOf ledger)] else []) ++
        (if quoteOf ledger ≠ [] then [(MODE_QUOTE, quoteOf ledger)] else []) ++
          (if fullOf ledger ≠ [] then [(MODE_FULL, fullOf ledger)] else []) := by
  refine ⟨resubLists_eq ledger, ?_, ?_⟩
  · induction ledger with
    | nil => rfl
    | cons i rest ih =>
        have hi := h i (List.mem_cons_self _ _)
        have hrest := ih (fun e he => h e (List.mem_cons_of_mem _ he))
        rcases hi with h1 | h2 | h3 | h4
        · have h2 : ¬i.2 = MODE_QUOTE := by rw [h1]; decide
          have h4 : ¬i.2 = "" := by rw [h1]; decide
          have h3 : ¬i.2 = MODE_FULL := by rw [h1]; decide
          simp [ltpOf, quoteOf, fullOf, List.filter_cons, h1, h2, h3, h4, MODE_LTP, MODE_QUOTE, MODE_FULL] at *
          omega
        · have h1 : ¬i.2 = MODE_LTP := by rw [h2]; decide
          have h4 : ¬i.2 = "" := by rw [h2]; decide
          have h3 : ¬i.2 = MODE_FULL := by rw [h2]; decide
          simp [ltpOf, quoteOf, fullOf, List.filter_cons, h1, h2, h3, h4, MODE_LTP, MODE_QUOTE, MODE_FULL] at *
          omega
        · have h1 : ¬i.2 = MODE_LTP := by rw [h3]; decide
          have h2 : ¬i.2 = MODE_QUOTE := by rw [h3]; decide
          have h4 : ¬i.2 = "" := by rw [h3]; decide
          simp [ltpOf, quoteOf, fullOf, List.filter_cons, h1, h2, h3, h4, MODE_LTP, MODE_QUOTE, MODE_FULL] at *
          omega
        · have h1 : ¬i.2 = MODE_LTP := by rw [h4]; decide
          have h2 : ¬i.2 = MODE_QUOTE := by rw [h4]; decide
          have h3 : ¬i.2 = MODE_FULL := by rw [h4]; decide
          simp [ltpOf, quoteOf, fullOf, List.filter_cons, h1, h2, h3, h4, MODE_LTP, MODE_QUOTE, MODE_FULL] at *
          omega
  · simp only [resubRequests, resubLists_eq]

/-- Witness for the amended C6, at the ledger
{100 → ltp, 200 → quote, 300 → unset, 400 → full}. -/
theorem resub_partition_witness :
    (resubLists [(100, "ltp"), (200, "quote"), (300, ""), (400, "full")] =
        (ltpOf [(100, "ltp"), (200, "quote"), (300, ""), (400, "full")],
          quoteOf [(100, "ltp"), (200, "quote"), (300, ""), (400, "full")],
          fullOf [(100, "ltp"), (200, "quote"), (300, ""), (400, "full")]) ∧
      (ltpOf [(100, "ltp"), (200, "quote"), (300, ""), (400, "full")]).length +
          (quoteOf [(100, "ltp"), (200, "quote"), (300, ""), (400, "full")]).length +
          (fullOf [(100, "ltp"), (200, "quote"), (300, ""), (400, "full")]).length =
        ([(100, "ltp"), (200, "quote"), (300, ""), (400, "full")] :
          List (Int × String)).length ∧
      resubRequests [(100, "ltp"), (200, "quote"), (300, ""), (400, "full")] =
        (if ltpOf [(100, "ltp"), (200, "quote"), (300, ""), (400, "full")] ≠ [] then
          [(MODE_LTP, ltpOf [(100, "ltp"), (200, "quote"), (300, ""), (400, "full")])]
        else []) ++
          (if quoteOf [(100, "ltp"), (200, "quote"), (300, ""), (400, "full")] ≠ [] then
            [(MODE_QUOTE, quoteOf [(100, "ltp"), (200, "quote"), (300, ""), (400, "full")])]
          else []) ++
            (if fullOf [(100, "ltp"), (200, "quote"), (300, ""), (400, "full")] ≠ [] then
              [(MODE_FULL, fullOf [(100, "ltp"), (200, "quote"), (300, ""), (400, "full")])]
            else [])) :=
  resub_partition [(100, "ltp"), (200, "quote"), (300, ""), (400, "full")]
    (by decide)

lemma keys_nodup_inj {l : List (Int × String)} (h : (l.map Prod.fst).Nodup)
    {a b : Int × String} (ha : a ∈ l) (hb : b ∈ l) (hf : a.1 = b.1) :
    a = b := by
  induction l with
  | nil => cases ha
  | cons e rest ih =>
      simp only [List.map_cons, List.nodup_cons] at h
      rcases List.mem_cons.mp ha with rfl | ha'
      · rcases List.mem_cons.mp hb with rfl | hb'
        · rfl
        · exfalso
          have hmem : b.1 ∈ rest.map Prod.fst := List.mem_map_of_mem Prod.fst hb'
          rw [← hf] at hmem
          exact h.1 hmem
      · rcases List.mem_cons.mp hb with rfl | hb'
        · exfalso
          have hmem : a.1 ∈ rest.map Prod.fst := List.mem_map_of_mem Prod.fst ha'
          rw [hf] at hmem
          exact h.1 hmem
        · exact ih h.2 ha' hb'

/-- C10: `setMode` stores its mode-string argument in the ledger
verbatim, with no validation; an entry whose stored mode lies outside
{ltp, quote, full, unset-sentinel} is placed in none of the three
resubscription lists; and there is a ledger for which the three lists
together hold strictly fewer tokens than the ledger holds entries. -/
theorem setMode_unvalidated_resub_gap :
    (∀ (ws : wsClient) (mode : String) (toks : List Int) (tok : Int),
        ws.connected = true → tok ∈ toks →
        ledgerGet (setMode ws mode toks).1.subbedInstruments tok = some mode) ∧
    (∀ ledger : List (Int × String), (ledger.map Prod.fst).Nodup →
        ∀ e ∈ ledger,
          e.2 ≠ MODE_LTP → e.2 ≠ MODE_QUOTE → e.2 ≠ MODE_FULL → e.2 ≠ "" →
          e.1 ∉ (resubLists ledger).1 ∧ e.1 ∉ (resubLists ledger).2.1 ∧
            e.1 ∉ (resubLists ledger).2.2) ∧
    (∃ ledger : List (Int × String),
        (resubLists ledger).1.length + (resubLists ledger).2.1.length +
            (resubLists ledger).2.2.length < ledger.length) := by
  refine ⟨?_, ?_, ⟨[((1 : Int), "x")], by decide⟩⟩
  · intro ws mode toks tok hconn hmem
    have hsm : (setMode ws mode toks).1.subbedInstruments =
        assignAll ws.subbedInstruments toks mode := by
      unfold setMode
      rw [if_pos hconn]
    rw [hsm, ledgerGet_assignAll, if_pos hmem]
  · intro ledger hnodup e he h1 h2 h3 h4
    rw [resubLists_eq]
    refine ⟨?_, ?_, ?_⟩ <;> intro hmem
    · rcases List.mem_map.mp hmem with ⟨a, haf, hae⟩
      rcases List.mem_filter.mp haf with ⟨haL, hpa⟩
      have hea : a = e := keys_nodup_inj hnodup haL he hae
      rw [hea] at hpa
      exact h1 (by simpa using hpa)
    · rcases List.mem_map.mp hmem with ⟨a, haf, hae⟩
      rcases List.mem_filter.mp haf with ⟨haL, hpa⟩
      have hea : a = e := keys_nodup_inj hnodup haL he hae
      rw [hea] at hpa
      rcases (by simpa using hpa : e.2 = MODE_QUOTE ∨ e.2 = "") with hq | hq
      · exact h2 hq
      · exact h4 hq
    · rcases List.mem_map.mp hmem with ⟨a, haf, hae⟩
      rcases List.mem_filter.mp haf with ⟨haL, hpa⟩
      have hea : a = e := keys_nodup_inj hnodup haL he hae
      rw [hea] at hpa
      exact h3 (by simpa using hpa)

/-- Witness for C10: `setMode` with the unvalidated mode string "fancy"
stores it verbatim; the single-entry ledger {1 → "fancy"} is omitted
from every resubscription list. -/
theorem setMode_unvalidated_resub_gap_witness :
    ledgerGet (setMode ⟨true, [], 0, false⟩ "fancy" [7]).1.subbedInstruments 7 =
      some "fancy" ∧
    ((1 : Int) ∉ (resubLists [((1 : Int), "fancy")]).1 ∧
      (1 : Int) ∉ (resubLists [((1 : Int), "fancy")]).2.1 ∧
      (1 : Int) ∉ (resubLists [((1 : Int), "fancy")]).2.2) :=
  ⟨setMode_unvalidated_resub_gap.1 ⟨true, [], 0, false⟩ "fancy" [7] 7 rfl
      (by decide),
    setMode_unvalidated_resub_gap.2.1 [((1 : Int), "fancy")] (by decide)
      ((1 : Int), "fancy") (by decide) (by decide) (by decide) (by decide)
      (by decide)⟩

/-- C7 counterexample: with the `onTicks` callback unset, a length-1
binary frame does NOT update the last-heartbeat time (the whole binary
branch is guarded by `opCode == BINARY && onTicks`), refuting the
claim's "regardless of which host callbacks are set". -/
theorem heartbeat_needs_onTicks :
    (handleBinaryMessage ⟨true, [], 0, false⟩ 1 [] [0]).1.lastBeatTime ≠ 1 := by
  decide

/-- C7 (amended): for every inbound binary frame of length 1, IF the
host installed the `onTicks` callback, the client sets the
last-heartbeat time to the current wall-clock time and neither splits
the frame nor emits ticks; if `onTicks` is unset the frame is ignored
entirely (no heartbeat update, no split, no ticks). -/
theorem heartbeat_frame (ws : wsClient) (now : Nat) (mem : List Nat) (b : Nat) :
    (ws.onTicksSet = true →
      handleBinaryMessage ws now mem [b] = ({ ws with lastBeatTime := now }, [])) ∧
    (ws.onTicksSet = false →
      handleBinaryMessage ws now mem [b] = (ws, [])) := by
  unfold handleBinaryMessage
  constructor
  · intro h
    rw [h]
    simp
  · intro h
    rw [h]
    simp

/-- Witness for the amended C7. -/
theorem heartbeat_frame_witness :
    handleBinaryMessage ⟨true, [], 0, true⟩ 5 [] [0] =
      ({ (⟨true, [], 0, true⟩ : wsClient) with lastBeatTime := 5 }, []) ∧
    handleBinaryMessage ⟨true, [], 7, false⟩ 5 [] [0] =
      (⟨true, [], 7, false⟩, []) :=
  ⟨(heartbeat_frame ⟨true, [], 0, true⟩ 5 [] 0).1 rfl,
    (heartbeat_frame ⟨true, [], 7, false⟩ 5 [] 0).2 rfl⟩

/-- C8: the 32-byte (indices FULL) packet whose bytes [28..32) are
`00 00 00 01` and whose buffer is followed in heap memory by bytes
`02 03`.  The claim says the timestamp is the big-endian int32 of bytes
[28..32), i.e. 1; the code (`_getNum<int32_t>(packet, 28, 33)`) slices
six bytes — two past the end of the packet — reverses them, and keeps
the first four, i.e. the big-endian int32 at offsets [30..34), here
0x00010203 = 66051, which depends on out-of-bounds memory. -/
theorem indices_full_timestamp_overrun :
    (parsePacket [2, 3] (List.replicate 28 0 ++ [0, 0, 0, 1])).timestamp = 66051 ∧
    beNat (((List.replicate 28 0 ++ [0, 0, 0, 1]) : List Nat).drop 28) = 1 ∧
    (66051 : Int) ≠ 1 := by
  refine ⟨by decide, by decide, by decide⟩

/-- C9 counterexample: a JSON object whose `type` is the unrecognized
non-empty string "foo" is routed without any failure and without any
dispatch (`Except.ok []`) — the function's three dispatch `if`s all
miss and it returns normally — refuting the claim that it fails with
an UnknownMessageType error. -/
theorem unknown_type_silently_ignored :
    processTextMessage ⟨true, true, true⟩ "m"
        (JsonVal.obj [("type", JsonVal.str "foo")]) = Except.ok [] := by
  rfl

/-- C9 (amended): the text router raises its message-type error exactly
when the parsed `type` is empty (the field is missing, non-string, or
the empty string); for a JSON object whose `type` is a non-empty string
outside {order, message, error}, it succeeds and dispatches nothing —
the frame is silently ignored. -/
theorem text_router_unknown_type (cb : textCallbacks) (raw : String)
    (fields : List (String × JsonVal)) :
    (getIfExistsString fields "type" = "" →
      processTextMessage cb raw (JsonVal.obj fields) =
        Except.error "Cannot recognize websocket message type ") ∧
    (∀ t : String, getIfExistsString fields "type" = t → t ≠ "" →
      t ≠ "order" → t ≠ "message" → t ≠ "error" →
      processTextMessage cb raw (JsonVal.obj fields) = Except.ok []) := by
  constructor
  · intro h
    simp only [processTextMessage]
    rw [h, if_pos rfl]
  · intro t ht hne horder hmessage herror
    simp only [processTextMessage]
    rw [ht, if_neg hne]
    simp [horder, hmessage, herror]

/-- Witness for the amended C9: with `type` "bar" the router succeeds
and dispatches nothing; with `type` missing it raises the
message-type error. -/
theorem text_router_unknown_type_witness :
    processTextMessage ⟨true, true, true⟩ "m"
        (JsonVal.obj [("type", JsonVal.str "bar")]) = Except.ok [] ∧
    processTextMessage ⟨true, true, true⟩ "m" (JsonVal.obj []) =
      Except.error "Cannot recognize websocket message type " :=
  ⟨(text_router_unknown_type ⟨true, true, true⟩ "m"
        [("type", JsonVal.str "bar")]).2 "bar" rfl (by decide) (by decide)
      (by decide) (by decide),
    (text_router_unknown_type ⟨true, true, true⟩ "m" []).1 rfl⟩

end KiteWS
